import Mathlib

/-!
# Verification of the experiment ingestion and statistics pipeline

A shallow embedding, in Lean 4, of the core data pipeline of
`analyze_experiments.py`: filename decoding (`parse_filename`), per-row
delay extraction (`calculate_delay`), per-file ingestion
(`load_experiment_data`), aggregation (`aggregate_statistics`) and the
data-selection part of the two comparison plots.

Modelling conventions:
* Python strings are `String` / `List Char`; `str.replace('.csv','')`
  removes every occurrence, left to right, as in Python.
* `datetime` values are naive wall-clock microsecond counts since
  0001-01-01 (Python ordinal arithmetic restricted to years 1..9999),
  together with an optional UTC-offset in microseconds
  (`None` = naive datetime).  Subtracting an aware and a naive datetime
  raises `TypeError` in Python; here it returns `none`.
* `datetime.fromisoformat` is modelled on the extended format actually
  exchanged by this repository: `YYYY-MM-DD[<sep>HH[:MM[:SS[.f{1..6}]]]]`
  with an optional `±HH:MM` offset (any single separator character, as in
  CPython).  `datetime.strptime` with format `%Y-%m-%dT%H:%M:%S.%f` is
  modelled with CPython's field regexes (1-2 digit month/day/hour/... and
  1-6 digit fraction, full-string match).
* floats are `ℚ` (the float literal `1e-9` is taken as `1/10^9`).
* `np.std` is kept as its square (`std_delay_sq`, the population
  variance), so that every definition stays inside `ℚ` and executable;
  no claim concerns the standard deviation itself.
* `pandas.to_datetime(..., errors='coerce', utc=True)` is an external
  library call; the pipeline is parameterised by the per-string parser
  `pdParse : String → Option ℚ` (an instant in seconds, `none` = `NaT`).
* exceptions that the source catches per row / per file are `Option` /
  `Except` values.
-/

/-- Decimal value of a list of ASCII digit characters (Python `int`). -/
def natOfDigits (l : List Char) : ℕ :=
  l.foldl (fun n c => 10 * n + (c.toNat - 48)) 0

/-- Python `str.replace('.csv', '')`: remove every (non-overlapping,
left-to-right) occurrence of `.csv`. -/
def removeCsv : List Char → List Char
  | '.' :: 'c' :: 's' :: 'v' :: rest => removeCsv rest
  | c :: rest => c :: removeCsv rest
  | [] => []

/-- The tail admitted by `re.match` anchoring `...$` (no `re.MULTILINE`):
the regex must end at the end of the string or just before one final
newline. -/
def regexEndOk (l : List Char) : Bool :=
  match l with
  | [] => true
  | ['\n'] => true
  | _ => false

/-- The `(HTTP|MQTT)$` part of the pattern, case-insensitive
(`re.IGNORECASE`), returning the matched group upper-cased
(`match.group(3).upper()`). -/
def protoMatch (l : List Char) : Option String :=
  match l with
  | a :: b :: c :: d :: t =>
    if regexEndOk t then
      let up := [a, b, c, d].map Char.toUpper
      if up = "HTTP".data then some "HTTP"
      else if up = "MQTT".data then some "MQTT"
      else none
    else none
  | _ => none

/-- `parse_filename` of `analyze_experiments.py`: strip `.csv`
occurrences, then match `^(\d+)_(\d+)_(HTTP|MQTT)$` case-insensitively
and return `(int(g1), int(g2), g3.upper())`.  The two greedy digit
groups are deterministic (a shorter digit run would put a digit where
`_` is required), so the regex match is the maximal-digit-run parse
below. -/
def parse_filename (filename : String) : Option (ℕ × ℕ × String) :=
  let base := removeCsv filename.data
  let d1 := base.takeWhile Char.isDigit
  match base.dropWhile Char.isDigit with
  | '_' :: r2 =>
    let d2 := r2.takeWhile Char.isDigit
    match r2.dropWhile Char.isDigit with
    | '_' :: r4 =>
      if d1 = [] ∨ d2 = [] then none
      else
        match protoMatch r4 with
        | some proto => some (natOfDigits d1, natOfDigits d2, proto)
        | none => none
    | _ => none
  | _ => none

/-- An `ExperimentKey`: `(message_frequency, num_devices, protocol)`. -/
abbrev ExpKey := ℕ × ℕ × String

example : parse_filename "2_5_HTTP.csv" = some (2, 5, "HTTP") := by decide
example : parse_filename "10_20_mqtt.csv" = some (10, 20, "MQTT") := by decide
example : parse_filename "bogus.csv" = none := by decide
example : parse_filename "1_2_HTTP.csv.csv" = some (1, 2, "HTTP") := by decide
example : parse_filename "1_2.csv_HTTP.csv" = some (1, 2, "HTTP") := by decide
example : parse_filename "1_2_3_HTTP.csv" = none := by decide

/-! ## The `datetime` model -/

/-- Gregorian leap year (`calendar.isleap`). -/
def isLeapYear (y : ℕ) : Bool :=
  y % 4 = 0 && (y % 100 ≠ 0 || y % 400 = 0)

/-- Days in a month of a given year. -/
def daysInMonth (y m : ℕ) : ℕ :=
  if m = 2 then (if isLeapYear y then 29 else 28)
  else if m = 4 ∨ m = 6 ∨ m = 9 ∨ m = 11 then 30
  else 31

/-- The validity check performed by the `datetime` constructor
(year 1..9999, real calendar date). -/
def isValidDate (y m d : ℕ) : Bool :=
  1 ≤ y && y ≤ 9999 && 1 ≤ m && m ≤ 12 && 1 ≤ d && d ≤ daysInMonth y m

/-- Days in all years strictly before year `y` (year ≥ 1), as in
`datetime.date.toordinal`. -/
def daysBeforeYear (y : ℕ) : ℕ :=
  let n := y - 1
  n * 365 + n / 4 - n / 100 + n / 400

/-- Days in the months of year `y` strictly before month `m`. -/
def daysBeforeMonth (y m : ℕ) : ℕ :=
  (((List.range 13).filter (fun i => 1 ≤ i ∧ i < m)).map (daysInMonth y)).sum

/-- Microseconds of a (valid) naive datetime since 0001-01-01T00:00:00. -/
def dtMicros (y m d hh mi ss us : ℕ) : ℕ :=
  ((daysBeforeYear y + daysBeforeMonth y m + (d - 1)) * 86400
    + hh * 3600 + mi * 60 + ss) * 1000000 + us

/-- A parsed Python `datetime`: naive microsecond count plus an optional
UTC offset in microseconds (`none` = naive). -/
structure PyDateTime where
  us : ℕ
  offsetUs : Option ℤ
deriving DecidableEq, Repr

/-- `receive_time - timestamp` in microseconds.  Mixing an aware and a
naive datetime raises `TypeError` in Python (`none` here); two aware
datetimes subtract their UTC instants. -/
def pySubUs (timestamp receive : PyDateTime) : Option ℤ :=
  match timestamp.offsetUs, receive.offsetUs with
  | none, none => some ((receive.us : ℤ) - (timestamp.us : ℤ))
  | some ot, some orc =>
      some (((receive.us : ℤ) - orc) - ((timestamp.us : ℤ) - ot))
  | _, _ => none

/-! ### `datetime.fromisoformat` -/

/-- Two ASCII digit characters to a number, `none` if not digits. -/
def twoDigits : List Char → Option (ℕ × List Char)
  | a :: b :: rest =>
      if a.isDigit && b.isDigit then some (natOfDigits [a, b], rest) else none
  | _ => none

/-- A fractional-second field: 1..6 digits, scaled to microseconds
(`.05` ↦ 50000). -/
def parseFrac (l : List Char) : Option (ℕ × List Char) :=
  let ds := l.takeWhile Char.isDigit
  if ds.length = 0 ∨ 6 < ds.length then none
  else some (natOfDigits ds * 10 ^ (6 - ds.length), l.drop ds.length)

/-- The optional `±HH:MM` UTC offset accepted at the end of an ISO
string (offset strictly below 24 hours), in microseconds. -/
def parseOffset : List Char → Option (Option ℤ)
  | [] => some none
  | sign :: rest =>
    if sign = '+' ∨ sign = '-' then
      match twoDigits rest with
      | some (oh, ':' :: rest2) =>
        match twoDigits rest2 with
        | some (om, []) =>
          if oh < 24 ∧ om < 60 then
            let mag : ℤ := ((oh * 3600 + om * 60) * 1000000 : ℕ)
            some (some (if sign = '-' then -mag else mag))
          else none
        | _ => none
      | _ => none
    else none

/-- The `HH[:MM[:SS[.ffffff]]][±HH:MM]` tail of an ISO string:
hours/minutes/seconds in microseconds plus the offset. -/
def parseTimeOfDay (l : List Char) : Option (ℕ × Option ℤ) :=
  match twoDigits l with
  | some (hh, rest) =>
    if 24 ≤ hh then none else
    match rest with
    | ':' :: rest1 =>
      match twoDigits rest1 with
      | some (mi, rest2) =>
        if 60 ≤ mi then none else
        match rest2 with
        | ':' :: rest3 =>
          match twoDigits rest3 with
          | some (ss, rest4) =>
            if 60 ≤ ss then none else
            match rest4 with
            | '.' :: rest5 =>
              match parseFrac rest5 with
              | some (us, rest6) =>
                match parseOffset rest6 with
                | some off => some ((hh * 3600 + mi * 60 + ss) * 1000000 + us, off)
                | none => none
              | none => none
            | _ =>
              match parseOffset rest4 with
              | some off => some ((hh * 3600 + mi * 60 + ss) * 1000000, off)
              | none => none
          | none => none
        | _ =>
          match parseOffset rest2 with
          | some off => some ((hh * 3600 + mi * 60) * 1000000, off)
          | none => none
      | none => none
    | _ =>
      match parseOffset rest with
      | some off => some (hh * 3600 * 1000000, off)
      | none => none
  | none => none

/-- `datetime.fromisoformat` on the extended format
`YYYY-MM-DD[<sep>HH[:MM[:SS[.f{1..6}]]]][±HH:MM]` (any single separator
character, as CPython allows).  `none` models `ValueError`. -/
def fromisoformat (s : List Char) : Option PyDateTime :=
  match s with
  | y1 :: y2 :: y3 :: y4 :: '-' :: m1 :: m2 :: '-' :: d1 :: d2 :: rest =>
    if [y1, y2, y3, y4, m1, m2, d1, d2].all Char.isDigit then
      let y := natOfDigits [y1, y2, y3, y4]
      let m := natOfDigits [m1, m2]
      let d := natOfDigits [d1, d2]
      if isValidDate y m d then
        match rest with
        | [] => some ⟨dtMicros y m d 0 0 0 0, none⟩
        | _sep :: timePart =>
          match parseTimeOfDay timePart with
          | some (tus, off) => some ⟨dtMicros y m d 0 0 0 0 + tus, off⟩
          | none => none
      else none
    else none
  | _ => none

/-! ### `datetime.strptime` with `'%Y-%m-%dT%H:%M:%S.%f'` -/

/-- One `strptime` numeric field: the maximal digit run must be `1..w`
digits long and its value within CPython's per-directive range
(the run is then necessarily fully consumed, the next format character
being a non-digit literal). -/
def strpField (l : List Char) (w lo1 hi1 lo2 hi2 : ℕ) : Option (ℕ × List Char) :=
  let ds := l.takeWhile Char.isDigit
  if ds.length = 0 ∨ w < ds.length then none
  else
    let v := natOfDigits ds
    if (ds.length = 1 ∧ lo1 ≤ v ∧ v ≤ hi1) ∨ (2 ≤ ds.length ∧ lo2 ≤ v ∧ v ≤ hi2) then
      some (v, l.drop ds.length)
    else none

/-- The `%Y` directive: exactly four digits (CPython compiles `%Y` to
`\\d\\d\\d\\d`). -/
def strptimeYear : List Char → Option (ℕ × List Char)
  | y1 :: y2 :: y3 :: y4 :: rest =>
      if [y1, y2, y3, y4].all Char.isDigit then
        some (natOfDigits [y1, y2, y3, y4], rest)
      else none
  | _ => none

/-- `datetime.strptime(s, '%Y-%m-%dT%H:%M:%S.%f')`: `%Y` is exactly four
digits, `%m`/`%d`/`%H`/`%M`/`%S` one or two, `%f` one to six; literals
must match and the whole string must be consumed; the resulting date is
validated by the `datetime` constructor.  Always naive (no `%z`). -/
def strptimeIso (s : List Char) : Option PyDateTime :=
  match strptimeYear s with
  | some (y, '-' :: r1) =>
    match strpField r1 2 1 9 1 12 with
    | some (m, '-' :: r2) =>
      match strpField r2 2 1 9 1 31 with
      | some (d, 'T' :: r3) =>
        match strpField r3 2 0 9 0 23 with
        | some (hh, ':' :: r4) =>
          match strpField r4 2 0 9 0 59 with
          | some (mi, ':' :: r5) =>
            match strpField r5 2 0 9 0 59 with
            | some (ss, '.' :: r6) =>
              match parseFrac r6 with
              | some (us, []) =>
                if isValidDate y m d then some ⟨dtMicros y m d hh mi ss us, none⟩
                else none
              | _ => none
            | _ => none
          | _ => none
        | _ => none
      | _ => none
    | _ => none
  | _ => none

/-! ### `calculate_delay` -/

/-- `s.split('+')[0].split('Z')[0]`: truncate at the first `+`, then at
the first `Z`. -/
def stripTZ (s : List Char) : List Char :=
  (s.takeWhile (· ≠ '+')).takeWhile (· ≠ 'Z')

/-- The parsing stage of `calculate_delay`: `fromisoformat` on both
strings; if either raises `ValueError`, retry both with
`strptime('%Y-%m-%dT%H:%M:%S.%f')`; a failure there propagates to the
outer handler (`none`). -/
def parsePair (t r : List Char) : Option (PyDateTime × PyDateTime) :=
  match fromisoformat t, fromisoformat r with
  | some a, some b => some (a, b)
  | _, _ =>
    match strptimeIso t, strptimeIso r with
    | some a, some b => some (a, b)
    | _, _ => none

/-- `calculate_delay` of `analyze_experiments.py` on the two text
fields: strip timezone markers, parse, and return
`(receive_time - timestamp).total_seconds() * 1000` (milliseconds);
`none` is the caught-exception path (diagnostic printed, row skipped). -/
def calculate_delay (timestamp receive_time : String) : Option ℚ :=
  match parsePair (stripTZ timestamp.data) (stripTZ receive_time.data) with
  | none => none
  | some (a, b) =>
    match pySubUs a b with
    | none => none
    | some d => some ((d : ℚ) / 1000)

example :
    calculate_delay "2024-01-02T03:04:05.000000" "2024-01-02T03:04:05.050000"
      = some (((50000 : ℤ) : ℚ) / 1000) := by rfl
example :
    calculate_delay "2024-01-02T03:04:05.000000+02:00" "2024-01-02T03:04:05.075000Z"
      = some (((75000 : ℤ) : ℚ) / 1000) := by rfl
example : calculate_delay "not-a-date" "2024-01-02T03:04:05.050000" = none := by
  decide
example :
    calculate_delay "2024-01-02T03:04:05-05:00" "2024-01-02T03:04:06" = none := by
  decide

/-! ## The ingestion pipeline (`load_experiment_data`) -/

/-- One CSV row as handed to `calculate_delay` (`row.to_dict()`).
`none` in a field models a missing column / non-string cell (`KeyError`
or `AttributeError` in the source, both caught per row). -/
structure Row where
  timestamp : Option String
  receive_time : Option String
deriving DecidableEq, Repr

/-- `calculate_delay` on a row dictionary. -/
def calcDelayRow (r : Row) : Option ℚ :=
  match r.timestamp, r.receive_time with
  | some t, some rc => calculate_delay t rc
  | _, _ => none

/-- A parsed CSV file: whether `'receive_time' in df.columns`, and the
rows. -/
structure Frame where
  receiveTimeCol : Bool
  rows : List Row
deriving DecidableEq, Repr

/-- A directory entry: the filename and the parsed content
(`none` = `pd.read_csv` raised; the file is skipped with a diagnostic). -/
structure FileEntry where
  name : String
  content : Option Frame
deriving DecidableEq, Repr

/-- The two `defaultdict(list)` pools, as insertion-ordered association
lists: per-key delay measurements (ms) and per-key `(count, span)`
throughput samples. -/
abbrev Pools := List (ExpKey × List ℚ) × List (ExpKey × List (ℕ × ℚ))

/-- `defaultdict(list)`: `m[k].extend(vs)` / `m[k].append(v)` — extend
in place if the key exists, else insert it at the end. -/
def extendPool {α : Type} (m : List (ExpKey × List α)) (k : ExpKey) (vs : List α) :
    List (ExpKey × List α) :=
  match m with
  | [] => [(k, vs)]
  | (k1, v) :: t => if k1 = k then (k1, v ++ vs) :: t else (k1, v) :: extendPool t k vs

/-- Dictionary lookup, `[]` for an absent key. -/
def lookupPool {α : Type} (m : List (ExpKey × List α)) (k : ExpKey) : List α :=
  match m with
  | [] => []
  | (k1, v) :: t => if k1 = k then v else lookupPool t k

/-- The delays collected from one file's rows:
`delay is not None and delay >= 0`. -/
def fileDelays (rows : List Row) : List ℚ :=
  rows.filterMap (fun r =>
    match calcDelayRow r with
    | some d => if 0 ≤ d then some d else none
    | none => none)

/-- `pd.to_datetime(df['receive_time'], errors='coerce', utc=True).dropna()`:
parse every cell with the (library-supplied) parser `pdParse`, dropping
`NaT` results; instants are in seconds. -/
def rtValues (pdParse : String → Option ℚ) (rows : List Row) : List ℚ :=
  rows.filterMap (fun r => r.receive_time.bind pdParse)

/-- Maximum of a list of rationals (`np.max` / `Series.max`; 0 only for
the empty list, on which the source never calls it). -/
def npMaxQ (l : List ℚ) : ℚ :=
  match l with
  | [] => 0
  | x :: xs => xs.foldl max x

/-- Minimum of a list of rationals. -/
def npMinQ (l : List ℚ) : ℚ :=
  match l with
  | [] => 0
  | x :: xs => xs.foldl min x

/-- The span recorded for one file:
`max(1e-9, (rt.max() - rt.min()).total_seconds())`. -/
def spanOf (rt : List ℚ) : ℚ :=
  max (1 / 10 ^ 9) (npMaxQ rt - npMinQ rt)

/-- The per-file body of the `load_experiment_data` loop: decode the
filename (skip on no match), read the file (skip on error), extend the
delay pool when any valid delay exists, and record one `(count, span)`
throughput sample when the `receive_time` column exists and at least
one value parses. -/
def processFile (pdParse : String → Option ℚ) (st : Pools) (e : FileEntry) : Pools :=
  match parse_filename e.name with
  | none => st
  | some key =>
    match e.content with
    | none => st
    | some df =>
      let ds := fileDelays df.rows
      let st1 : Pools := if ds = [] then st else (extendPool st.1 key ds, st.2)
      if df.receiveTimeCol then
        let rt := rtValues pdParse df.rows
        if rt = [] then st1
        else (st1.1, extendPool st1.2 key [(rt.length, spanOf rt)])
      else st1

/-- Is a directory entry matched by `Path.glob("*.csv")`: any name
ending in `.csv`.  `pathlib`'s glob, unlike the `glob` module, does not
special-case hidden files, so dotfiles such as `.hidden.csv` (or the
bare name `.csv`, matched by an empty `*`) are candidates too. -/
def isCsvEntry (e : FileEntry) : Bool :=
  ".csv".data.isSuffixOf e.name.data

/-- `load_experiment_data`: `none` for the directory models a missing
path (`FileNotFoundError`); an empty candidate list raises `ValueError`;
otherwise every candidate file is processed in order, starting from two
empty pools. -/
def load_experiment_data (pdParse : String → Option ℚ)
    (dataFolder : Option (List FileEntry)) : Except String Pools :=
  match dataFolder with
  | none => Except.error "Data folder not found"
  | some entries =>
    let csvFiles := entries.filter isCsvEntry
    if csvFiles = [] then Except.error "No CSV files found"
    else Except.ok (csvFiles.foldl (processFile pdParse) ([], []))

/-! ## `numpy` statistics on `ℚ` -/

/-- `np.mean`. -/
def npMean (l : List ℚ) : ℚ := l.sum / l.length

/-- The sorted copy that `np.median` / `np.percentile` work on. -/
def sortQ (l : List ℚ) : List ℚ := l.insertionSort (· ≤ ·)

/-- `np.median`: middle element, or the mean of the two middle elements. -/
def npMedian (l : List ℚ) : ℚ :=
  let s := sortQ l
  let n := s.length
  if n % 2 = 1 then s.getD (n / 2) 0
  else (s.getD (n / 2 - 1) 0 + s.getD (n / 2) 0) / 2

/-- `np.percentile(l, q)` with the default linear interpolation:
index `h = q(n-1)/100`, value `s[⌊h⌋] + (h - ⌊h⌋)(s[⌊h⌋+1] - s[⌊h⌋])`. -/
def percentileNp (l : List ℚ) (q : ℚ) : ℚ :=
  let s := sortQ l
  let n := s.length
  let h : ℚ := q * ((n : ℚ) - 1) / 100
  let i : ℕ := (⌊h⌋).toNat
  s.getD i 0 + (h - (i : ℚ)) * (s.getD (i + 1) 0 - s.getD i 0)

/-- `np.std` squared: the population variance (see the header note). -/
def npVarQ (l : List ℚ) : ℚ :=
  (l.map (fun x => (x - npMean l) ^ 2)).sum / l.length

/-- One row of the statistics DataFrame (see the header note on
`std_delay_sq`). -/
structure Stat where
  message_frequency : ℕ
  num_devices : ℕ
  protocol : String
  mean_delay : ℚ
  std_delay_sq : ℚ
  min_delay : ℚ
  max_delay : ℚ
  median_delay : ℚ
  p95_delay : ℚ
  p99_delay : ℚ
  count : ℕ
deriving DecidableEq, Repr, Inhabited

/-- `aggregate_statistics`: one row per experiment-data entry with a
non-empty delay list (`if delays:`). -/
def aggregate_statistics (pool : List (ExpKey × List ℚ)) : List Stat :=
  pool.filterMap (fun kv =>
    if kv.2 = [] then none
    else some {
      message_frequency := kv.1.1
      num_devices := kv.1.2.1
      protocol := kv.1.2.2
      mean_delay := npMean kv.2
      std_delay_sq := npVarQ kv.2
      min_delay := npMinQ kv.2
      max_delay := npMaxQ kv.2
      median_delay := npMedian kv.2
      p95_delay := percentileNp kv.2 95
      p99_delay := percentileNp kv.2 99
      count := kv.2.length })

/-- The ExperimentKey of a statistics row. -/
def Stat.key (s : Stat) : ExpKey := (s.message_frequency, s.num_devices, s.protocol)

/-! ## The comparison/reporting data selection -/

/-- `[cnt / span for (cnt, span) in runs if span > 0]`. -/
def ratesOf (runs : List (ℕ × ℚ)) : List ℚ :=
  (runs.filter (fun p => 0 < p.2)).map (fun p => (p.1 : ℚ) / p.2)

/-- One record of `plot_throughput_vs_devices_for_interval`. -/
structure ThroughputRec where
  message_frequency : ℕ
  num_devices : ℕ
  protocol : String
  throughput_mps : ℚ
deriving DecidableEq, Repr

/-- The record-collection loop of
`plot_throughput_vs_devices_for_interval`: keep keys whose frequency
matches the interval and whose run list yields at least one per-run
rate; the figure is the mean of the individual `count / span` rates. -/
def throughputRecords (thr : List (ExpKey × List (ℕ × ℚ))) (interval : ℕ) :
    List ThroughputRec :=
  thr.filterMap (fun kv =>
    if kv.1.1 = interval ∧ kv.2 ≠ [] then
      let rs := ratesOf kv.2
      if rs = [] then none
      else some ⟨kv.1.1, kv.1.2.1, kv.1.2.2, npMean rs⟩
    else none)

/-- Sorted distinct group keys, then the mean of each group
(`groupby('num_devices')[col].mean().sort_index()`). -/
def groupMeanBy (rows : List (ℕ × ℚ)) : List (ℕ × ℚ) :=
  (((rows.map Prod.fst).dedup).insertionSort (· ≤ ·)).map
    (fun k => (k, npMean ((rows.filter (fun p => p.1 = k)).map Prod.snd)))

/-- `plot_delay_vs_devices_for_interval`, up to rendering: `none` models
the early `return` after the "No data found" diagnostic; otherwise the
plotted series (one per protocol present). -/
def plot_delay_vs_devices_for_interval (stats : List Stat) (interval : ℕ) :
    Option (List (String × List (ℕ × ℚ))) :=
  let filtered := stats.filter (fun s => s.message_frequency = interval)
  if filtered = [] then none
  else some (["HTTP", "MQTT"].filterMap (fun proto =>
    let protoDf := filtered.filter (fun s => s.protocol = proto)
    if protoDf = [] then none
    else some (proto, groupMeanBy (protoDf.map (fun s => (s.num_devices, s.mean_delay))))))

/-- `plot_throughput_vs_devices_for_interval`, up to rendering: `none`
models the early `return` after the "No throughput data" diagnostic. -/
def plot_throughput_vs_devices_for_interval (thr : List (ExpKey × List (ℕ × ℚ)))
    (interval : ℕ) : Option (List (String × List (ℕ × ℚ))) :=
  let records := throughputRecords thr interval
  if records = [] then none
  else some (["HTTP", "MQTT"].filterMap (fun proto =>
    let protoDf := records.filter (fun r => r.protocol = proto)
    if protoDf = [] then none
    else some (proto, groupMeanBy (protoDf.map (fun r => (r.num_devices, r.throughput_mps))))))

/-! ## Pool lemmas -/

theorem lookupPool_extendPool_self {α : Type} (m : List (ExpKey × List α)) (k : ExpKey)
    (vs : List α) : lookupPool (extendPool m k vs) k = lookupPool m k ++ vs := by
  induction m with
  | nil => simp [extendPool, lookupPool]
  | cons hd t ih =>
    obtain ⟨k1, v⟩ := hd
    by_cases hk : k1 = k <;> simp [extendPool, lookupPool, hk, ih]

theorem lookupPool_extendPool_ne {α : Type} (m : List (ExpKey × List α)) (k k2 : ExpKey)
    (vs : List α) (h : k2 ≠ k) :
    lookupPool (extendPool m k vs) k2 = lookupPool m k2 := by
  induction m with
  | nil => simp [extendPool, lookupPool, Ne.symm h]
  | cons hd t ih =>
    obtain ⟨k1, v⟩ := hd
    by_cases hk : k1 = k
    · subst hk
      have hne : k1 ≠ k2 := fun hh => h hh.symm
      simp [extendPool, lookupPool, hne]
    · simp only [extendPool, if_neg hk, lookupPool]
      split <;> simp [ih]

/-- The keys of a pool, in insertion order. -/
def keysOf {α : Type} (m : List (ExpKey × List α)) : List ExpKey := m.map Prod.fst

theorem mem_keysOf_extendPool {α : Type} {m : List (ExpKey × List α)} {k a : ExpKey}
    {vs : List α} (h : a ∈ keysOf (extendPool m k vs)) : a = k ∨ a ∈ keysOf m := by
  induction m with
  | nil => simpa [extendPool, keysOf] using h
  | cons hd t ih =>
    obtain ⟨k1, v⟩ := hd
    by_cases hk : k1 = k
    · subst hk
      rcases (by simpa [extendPool, keysOf] using h : a = k1 ∨ a ∈ keysOf t) with h1 | h1
      · exact Or.inl h1
      · exact Or.inr (by simp [keysOf] at h1 ⊢; exact Or.inr h1)
    · rcases (by simpa [extendPool, hk, keysOf] using h :
          a = k1 ∨ a ∈ keysOf (extendPool t k vs)) with h1 | h1
      · exact Or.inr (by simp [keysOf, h1])
      · rcases ih h1 with h2 | h2
        · exact Or.inl h2
        · exact Or.inr (by simp [keysOf] at h2 ⊢; exact Or.inr h2)

theorem nodup_keysOf_extendPool {α : Type} {m : List (ExpKey × List α)} (k : ExpKey)
    (vs : List α) (h : (keysOf m).Nodup) : (keysOf (extendPool m k vs)).Nodup := by
  induction m with
  | nil => simp [extendPool, keysOf]
  | cons hd t ih =>
    obtain ⟨k1, v⟩ := hd
    simp only [keysOf, List.map_cons, List.nodup_cons] at h
    by_cases hk : k1 = k
    · subst hk
      simpa [extendPool, keysOf, List.nodup_cons] using h
    · rw [show extendPool ((k1, v) :: t) k vs = (k1, v) :: extendPool t k vs by
        simp [extendPool, hk]]
      rw [show keysOf ((k1, v) :: extendPool t k vs)
            = k1 :: keysOf (extendPool t k vs) from rfl]
      refine List.nodup_cons.mpr ⟨?_, ih h.2⟩
      intro hmem
      rcases mem_keysOf_extendPool hmem with h1 | h1
      · exact hk h1
      · exact h.1 (by simpa [keysOf] using h1)

theorem lookupPool_eq_of_mem {α : Type} {m : List (ExpKey × List α)} {k : ExpKey}
    {v : List α} (hnod : (keysOf m).Nodup) (h : (k, v) ∈ m) : lookupPool m k = v := by
  induction m with
  | nil => simp at h
  | cons hd t ih =>
    obtain ⟨k1, v1⟩ := hd
    simp only [keysOf, List.map_cons, List.nodup_cons] at hnod
    rcases List.mem_cons.mp h with h1 | h1
    · have h1a : k1 = k := (Prod.ext_iff.mp h1).1.symm
      have h1b : v1 = v := (Prod.ext_iff.mp h1).2.symm
      subst h1a
      subst h1b
      simp [lookupPool]
    · have hne : k1 ≠ k := by
        intro hh
        subst hh
        exact hnod.1 (by simpa [keysOf] using List.mem_map_of_mem Prod.fst h1)
      simp [lookupPool, hne, ih hnod.2 h1]

theorem mem_of_lookupPool {α : Type} {m : List (ExpKey × List α)} {k : ExpKey} {x : α}
    (h : x ∈ lookupPool m k) : ∃ kv ∈ m, x ∈ kv.2 := by
  induction m with
  | nil => simp [lookupPool] at h
  | cons hd t ih =>
    obtain ⟨k1, v⟩ := hd
    by_cases hk : k1 = k
    · exact ⟨(k1, v), by simp, by simpa [lookupPool, hk] using h⟩
    · obtain ⟨kv, hkv, hx⟩ := ih (by simpa [lookupPool, hk] using h)
      exact ⟨kv, by simp [hkv], hx⟩

/-! ## Per-file contribution lemmas -/

/-- What one directory entry adds to the delay pool of a given key. -/
def fileContrib (e : FileEntry) (key : ExpKey) : List ℚ :=
  match parse_filename e.name, e.content with
  | some k, some df => if k = key then fileDelays df.rows else []
  | _, _ => []

/-- What one directory entry adds to the throughput pool of a given key. -/
def thrContrib (p : String → Option ℚ) (e : FileEntry) (key : ExpKey) : List (ℕ × ℚ) :=
  match parse_filename e.name, e.content with
  | some k, some df =>
    if k = key ∧ df.receiveTimeCol = true ∧ rtValues p df.rows ≠ [] then
      [((rtValues p df.rows).length, spanOf (rtValues p df.rows))]
    else []
  | _, _ => []

theorem processFile_fst_lookup (p : String → Option ℚ) (st : Pools) (e : FileEntry)
    (key : ExpKey) :
    lookupPool (processFile p st e).1 key = lookupPool st.1 key ++ fileContrib e key := by
  unfold processFile fileContrib
  cases hp : parse_filename e.name with
  | none => simp
  | some k =>
    cases hc : e.content with
    | none => simp
    | some df =>
      simp only
      by_cases hds : fileDelays df.rows = []
      · by_cases hcol : df.receiveTimeCol
        · by_cases hrt : rtValues p df.rows = [] <;>
            simp [hds, hcol, hrt, if_pos, if_neg]
        · simp [hds, hcol]
      · by_cases hkey : k = key
        · subst hkey
          by_cases hcol : df.receiveTimeCol
          · by_cases hrt : rtValues p df.rows = [] <;>
              simp [hds, hcol, hrt, lookupPool_extendPool_self]
          · simp [hds, hcol, lookupPool_extendPool_self]
        · by_cases hcol : df.receiveTimeCol
          · by_cases hrt : rtValues p df.rows = [] <;>
              simp [hds, hcol, hrt, hkey, lookupPool_extendPool_ne _ _ _ _ (Ne.symm hkey)]
          · simp [hds, hcol, hkey, lookupPool_extendPool_ne _ _ _ _ (Ne.symm hkey)]

theorem processFile_snd_lookup (p : String → Option ℚ) (st : Pools) (e : FileEntry)
    (key : ExpKey) :
    lookupPool (processFile p st e).2 key = lookupPool st.2 key ++ thrContrib p e key := by
  unfold processFile thrContrib
  cases hp : parse_filename e.name with
  | none => simp
  | some k =>
    cases hc : e.content with
    | none => simp
    | some df =>
      simp only
      by_cases hcol : df.receiveTimeCol
      · by_cases hrt : rtValues p df.rows = []
        · by_cases hds : fileDelays df.rows = [] <;> simp [hds, hcol, hrt]
        · by_cases hkey : k = key
          · subst hkey
            by_cases hds : fileDelays df.rows = [] <;>
              simp [hds, hcol, hrt, lookupPool_extendPool_self]
          · by_cases hds : fileDelays df.rows = [] <;>
              simp [hds, hcol, hrt, hkey, lookupPool_extendPool_ne _ _ _ _ (Ne.symm hkey)]
      · by_cases hds : fileDelays df.rows = [] <;> simp [hds, hcol]

/-- The delay-pool contribution of a list of files, in processing order. -/
def delayContribs (files : List FileEntry) (key : ExpKey) : List ℚ :=
  match files with
  | [] => []
  | e :: t => fileContrib e key ++ delayContribs t key

theorem foldl_processFile_fst_lookup (p : String → Option ℚ) (files : List FileEntry)
    (init : Pools) (key : ExpKey) :
    lookupPool (files.foldl (processFile p) init).1 key
      = lookupPool init.1 key ++ delayContribs files key := by
  induction files generalizing init with
  | nil => simp [delayContribs]
  | cons e t ih =>
    simp only [List.foldl_cons, delayContribs]
    rw [ih, processFile_fst_lookup, List.append_assoc]

/-! ## Pipeline invariants -/

theorem mem_fileDelays_nonneg {rows : List Row} {d : ℚ} (h : d ∈ fileDelays rows) :
    0 ≤ d := by
  obtain ⟨r, _, hr⟩ := List.mem_filterMap.mp h
  revert hr
  cases hcd : calcDelayRow r with
  | none => simp
  | some v =>
    by_cases hv : 0 ≤ v
    · simp only [hv, if_pos, Option.some.injEq]
      rintro rfl
      exact hv
    · simp [hv]

theorem mem_fileContrib_nonneg {e : FileEntry} {key : ExpKey} {d : ℚ}
    (h : d ∈ fileContrib e key) : 0 ≤ d := by
  unfold fileContrib at h
  revert h
  cases parse_filename e.name <;> try simp
  cases e.content <;> try simp
  exact fun _ h => mem_fileDelays_nonneg h

theorem mem_delayContribs_nonneg {files : List FileEntry} {key : ExpKey} {d : ℚ}
    (h : d ∈ delayContribs files key) : 0 ≤ d := by
  induction files with
  | nil => simp [delayContribs] at h
  | cons e t ih =>
    rcases List.mem_append.mp (by simpa [delayContribs] using h) with h1 | h1
    · exact mem_fileContrib_nonneg h1
    · exact ih h1

/-- A pool has pairwise-distinct keys and no empty value list. -/
def PoolWF {α : Type} (m : List (ExpKey × List α)) : Prop :=
  (keysOf m).Nodup ∧ ∀ kv ∈ m, kv.2 ≠ []

theorem poolWF_extendPool {α : Type} {m : List (ExpKey × List α)} {k : ExpKey}
    {vs : List α} (hm : PoolWF m) (hvs : vs ≠ []) : PoolWF (extendPool m k vs) := by
  constructor
  · exact nodup_keysOf_extendPool k vs hm.1
  · intro kv hkv
    induction m with
    | nil =>
      simp only [extendPool, List.mem_singleton] at hkv
      subst hkv
      exact hvs
    | cons hd t ih =>
      obtain ⟨k1, v⟩ := hd
      by_cases hk : k1 = k
      · rcases List.mem_cons.mp (by simpa [extendPool, hk] using hkv) with h1 | h1
        · subst h1
          simp only [ne_eq, List.append_eq_nil]
          intro ⟨_, h2⟩
          exact hvs h2
        · exact hm.2 kv (List.mem_cons_of_mem _ h1)
      · rcases List.mem_cons.mp (by simpa [extendPool, hk] using hkv) with h1 | h1
        · subst h1
          exact hm.2 (k1, v) (List.mem_cons_self _ _)
        · exact ih ⟨(List.nodup_cons.mp hm.1).2, fun kv2 hkv2 =>
            hm.2 kv2 (List.mem_cons_of_mem _ hkv2)⟩ h1

theorem poolWF_processFile_fst {p : String → Option ℚ} {st : Pools} {e : FileEntry}
    (h : PoolWF st.1) : PoolWF (processFile p st e).1 := by
  unfold processFile
  cases parse_filename e.name with
  | none => exact h
  | some k =>
    cases e.content with
    | none => exact h
    | some df =>
      simp only
      by_cases hds : fileDelays df.rows = []
      · by_cases hcol : df.receiveTimeCol
        · by_cases hrt : rtValues p df.rows = [] <;> simp [hds, hcol, hrt, h]
        · simp [hds, hcol, h]
      · by_cases hcol : df.receiveTimeCol
        · by_cases hrt : rtValues p df.rows = [] <;>
            simp [hds, hcol, hrt, poolWF_extendPool h hds]
        · simp [hds, hcol, poolWF_extendPool h hds]

theorem poolWF_foldl_fst (p : String → Option ℚ) (files : List FileEntry) {init : Pools}
    (h : PoolWF init.1) : PoolWF ((files.foldl (processFile p) init).1) := by
  induction files generalizing init with
  | nil => exact h
  | cons e t ih => exact ih (poolWF_processFile_fst h)

/-! ## Claim theorems -/

theorem load_ok_eq {p : String → Option ℚ} {files : List FileEntry} {pools : Pools}
    (h : load_experiment_data p (some files) = Except.ok pools) :
    files.filter isCsvEntry ≠ []
      ∧ pools = (files.filter isCsvEntry).foldl (processFile p) ([], []) := by
  unfold load_experiment_data at h
  by_cases hf : files.filter isCsvEntry = []
  · simp [hf] at h
  · simp only [hf, if_neg, ite_false, Except.ok.injEq] at h
    exact ⟨hf, h.symm⟩

/-- **C7.** The ingestion pipeline raises a fatal error iff the data
directory is missing or holds zero candidate (`*.csv`) files; an
unmatched filename or an unreadable file leaves the pools untouched,
every candidate file is still processed in order, and a row rejected by
the delay or timestamp parser is dropped without affecting its sibling
rows. -/
theorem fatal_iff_missing_dir_or_no_csv :
    (∀ p : String → Option ℚ, ∃ msg, load_experiment_data p none = Except.error msg)
  ∧ (∀ (p : String → Option ℚ) (files : List FileEntry),
      (∃ msg, load_experiment_data p (some files) = Except.error msg)
        ↔ files.filter isCsvEntry = [])
  ∧ (∀ (p : String → Option ℚ) (files : List FileEntry),
      files.filter isCsvEntry ≠ [] →
      load_experiment_data p (some files)
        = Except.ok ((files.filter isCsvEntry).foldl (processFile p) ([], [])))
  ∧ (∀ (p : String → Option ℚ) (st : Pools) (e : FileEntry),
      parse_filename e.name = none ∨ e.content = none → processFile p st e = st)
  ∧ (∀ (p : String → Option ℚ) (l1 l2 : List Row) (r : Row),
      calcDelayRow r = none →
      fileDelays (l1 ++ r :: l2) = fileDelays (l1 ++ l2)
        ∧ (r.receive_time.bind p = none →
            rtValues p (l1 ++ r :: l2) = rtValues p (l1 ++ l2))) := by
  refine ⟨fun p => ⟨_, rfl⟩, ?_, ?_, ?_, ?_⟩
  · intro p files
    constructor
    · rintro ⟨msg, hmsg⟩
      by_cases hf : files.filter isCsvEntry = []
      · exact hf
      · simp [load_experiment_data, hf] at hmsg
    · intro hf
      exact ⟨"No CSV files found", by simp [load_experiment_data, hf]⟩
  · intro p files hf
    simp [load_experiment_data, hf]
  · intro p st e h
    rcases h with h | h <;> simp [processFile, h]
    cases hp : parse_filename e.name <;> simp
  · intro p l1 l2 r hr
    constructor
    · simp [fileDelays, List.filterMap_append, hr]
    · intro hrt
      simp [rtValues, List.filterMap_append, hrt]

theorem C7_witness :
    (∃ msg, load_experiment_data (fun _ => none) none = Except.error msg)
  ∧ load_experiment_data (fun _ => none) (some [⟨"2_5_HTTP.csv", none⟩])
      = Except.ok
          (([⟨"2_5_HTTP.csv", none⟩] : List FileEntry).filter isCsvEntry
            |>.foldl (processFile (fun _ => none)) ([], []))
  ∧ load_experiment_data (fun _ => none) (some [⟨".hidden.csv", none⟩])
      = Except.ok
          (([⟨".hidden.csv", none⟩] : List FileEntry).filter isCsvEntry
            |>.foldl (processFile (fun _ => none)) ([], []))
  ∧ processFile (fun _ => none) ([], []) ⟨"bogus.csv", none⟩ = ([], [])
  ∧ fileDelays ([] ++ (⟨none, none⟩ : Row) :: []) = fileDelays ([] ++ []) := by
  obtain ⟨h1, _, h3, h4, h5⟩ := fatal_iff_missing_dir_or_no_csv
  exact ⟨h1 _, h3 _ _ (by decide), h3 _ _ (by decide), h4 _ _ _ (Or.inl (by decide)),
    (h5 (fun _ => none) [] [] ⟨none, none⟩ (by decide)).1⟩

/-- **C8.** A requested interval with no matching aggregated rows
(respectively no throughput samples) makes the comparison return
normally with empty output (`none`, after only a diagnostic), skipping
the reporting step. -/
theorem empty_interval_comparison_is_skipped :
    (∀ (stats : List Stat) (interval : ℕ),
      stats.filter (fun s => s.message_frequency = interval) = [] →
      plot_delay_vs_devices_for_interval stats interval = none)
  ∧ (∀ (thr : List (ExpKey × List (ℕ × ℚ))) (interval : ℕ),
      (∀ kv ∈ thr, kv.1.1 = interval → ratesOf kv.2 = []) →
      plot_throughput_vs_devices_for_interval thr interval = none) := by
  constructor
  · intro stats interval h
    simp [plot_delay_vs_devices_for_interval, h]
  · intro thr interval h
    have hrec : throughputRecords thr interval = [] := by
      unfold throughputRecords
      rw [List.filterMap_eq_nil_iff]
      intro kv hkv
      by_cases h1 : kv.1.1 = interval ∧ kv.2 ≠ []
      · simp [throughputRecords, h1, h kv hkv h1.1]
      · simp [throughputRecords, h1]
    simp [plot_throughput_vs_devices_for_interval, hrec]

theorem C8_witness :
    plot_delay_vs_devices_for_interval
        [⟨2, 5, "HTTP", 50, 0, 50, 50, 50, 50, 50, 3⟩] 3 = none
  ∧ plot_throughput_vs_devices_for_interval [((5, 1, "HTTP"), [(3, 1)])] 2 = none := by
  obtain ⟨h1, h2⟩ := empty_interval_comparison_is_skipped
  exact ⟨h1 _ _ (by decide), h2 _ _ (by decide)⟩

/-- **C5.** Delay extraction and throughput estimation are independent:
a file with zero valid delays still records its `(count, span)` sample
when `receive_time` exists and parses, and a row whose timestamp pair is
unparseable is dropped from the delay pool while its valid
`receive_time` still counts toward the file's throughput data. -/
theorem delay_and_throughput_independent :
    (∀ (p : String → Option ℚ) (st : Pools) (e : FileEntry) (key : ExpKey) (df : Frame),
      parse_filename e.name = some key → e.content = some df →
      fileDelays df.rows = [] → df.receiveTimeCol = true → rtValues p df.rows ≠ [] →
      (processFile p st e).2
          = extendPool st.2 key [((rtValues p df.rows).length, spanOf (rtValues p df.rows))]
        ∧ (processFile p st e).1 = st.1)
  ∧ (∀ (p : String → Option ℚ) (l1 l2 : List Row) (r : Row) (t : ℚ),
      calcDelayRow r = none → r.receive_time.bind p = some t →
      fileDelays (l1 ++ r :: l2) = fileDelays l1 ++ fileDelays l2
        ∧ rtValues p (l1 ++ r :: l2) = rtValues p l1 ++ t :: rtValues p l2) := by
  constructor
  · intro p st e key df hp hc hds hcol hrt
    constructor <;> simp [processFile, hp, hc, hds, hcol, hrt]
  · intro p l1 l2 r t hr hrt
    constructor
    · simp [fileDelays, List.filterMap_append, hr]
    · simp [rtValues, List.filterMap_append, hrt]

theorem C5_witness :
    (processFile (fun s => if s = "10" then some 10 else none) ([], [])
        ⟨"3_7_mqtt.csv", some ⟨true, [⟨some "bad", some "10"⟩]⟩⟩).2
      = extendPool [] (3, 7, "MQTT")
          [((rtValues (fun s => if s = "10" then some 10 else none)
              [⟨some "bad", some "10"⟩]).length,
            spanOf (rtValues (fun s => if s = "10" then some 10 else none)
              [⟨some "bad", some "10"⟩]))]
  ∧ fileDelays ([⟨some "x", some "y"⟩] ++ (⟨some "bad", some "10"⟩ : Row) :: [])
      = fileDelays [⟨some "x", some "y"⟩] ++ fileDelays [] := by
  obtain ⟨h1, h2⟩ := delay_and_throughput_independent
  exact ⟨(h1 (fun s => if s = "10" then some 10 else none) ([], [])
      ⟨"3_7_mqtt.csv", some ⟨true, [⟨some "bad", some "10"⟩]⟩⟩ (3, 7, "MQTT")
      ⟨true, [⟨some "bad", some "10"⟩]⟩ (by decide) rfl (by decide) rfl (by decide)).1,
    (h2 (fun s => if s = "10" then some 10 else none) [⟨some "x", some "y"⟩] []
      ⟨some "bad", some "10"⟩ 10 (by decide) (by decide)).1⟩

/-- **C2.** Each run file with a `receive_time` column and at least one
parseable value records exactly one `(count, span)` pair against its
ExperimentKey (count = number of valid instants,
`span = max(1e-9, max - min)`), leaving other keys untouched; the
per-key throughput figure is the arithmetic mean of that key's
individual `count / span` rates (each pair divided on its own, never a
pooled total/total division). -/
theorem throughput_sample_and_mean_of_rates :
    (∀ (rt : List ℚ), spanOf rt = max (1 / 10 ^ 9) (npMaxQ rt - npMinQ rt))
  ∧ (∀ (p : String → Option ℚ) (st : Pools) (e : FileEntry) (key : ExpKey) (df : Frame),
      parse_filename e.name = some key → e.content = some df →
      df.receiveTimeCol = true → rtValues p df.rows ≠ [] →
      lookupPool (processFile p st e).2 key
          = lookupPool st.2 key
              ++ [((rtValues p df.rows).length, spanOf (rtValues p df.rows))]
        ∧ ∀ k2, k2 ≠ key →
            lookupPool (processFile p st e).2 k2 = lookupPool st.2 k2)
  ∧ (∀ (thr : List (ExpKey × List (ℕ × ℚ))) (interval : ℕ) (k : ExpKey)
        (runs : List (ℕ × ℚ)),
      (k, runs) ∈ thr → k.1 = interval → ratesOf runs ≠ [] →
      (⟨k.1, k.2.1, k.2.2, npMean (ratesOf runs)⟩ : ThroughputRec)
        ∈ throughputRecords thr interval)
  ∧ (∀ (thr : List (ExpKey × List (ℕ × ℚ))) (interval : ℕ)
        (rec : ThroughputRec), rec ∈ throughputRecords thr interval →
      ∃ kv ∈ thr, kv.1.1 = interval ∧ ratesOf kv.2 ≠ []
        ∧ rec = ⟨kv.1.1, kv.1.2.1, kv.1.2.2, npMean (ratesOf kv.2)⟩) := by
  refine ⟨fun rt => rfl, ?_, ?_, ?_⟩
  · intro p st e key df hp hc hcol hrt
    constructor
    · rw [processFile_snd_lookup]
      have : thrContrib p e key
          = [((rtValues p df.rows).length, spanOf (rtValues p df.rows))] := by
        simp [thrContrib, hp, hc, hcol, hrt]
      rw [this]
    · intro k2 hk2
      rw [processFile_snd_lookup]
      have : thrContrib p e k2 = [] := by
        simp [thrContrib, hp, hc, Ne.symm hk2]
      rw [this, List.append_nil]
  · intro thr interval k runs hmem hint hrates
    apply List.mem_filterMap.mpr
    refine ⟨(k, runs), hmem, ?_⟩
    have hne : runs ≠ [] := by
      rintro rfl
      exact hrates rfl
    simp [hint, hne, hrates]
  · intro thr interval rec hrec
    obtain ⟨kv, hkv, hf⟩ := List.mem_filterMap.mp hrec
    by_cases hcond : kv.1.1 = interval ∧ kv.2 ≠ []
    · rw [if_pos hcond] at hf
      by_cases hrs : ratesOf kv.2 = []
      · simp only [hrs, if_pos] at hf
        exact absurd hf (by simp)
      · simp only [hrs, if_neg] at hf
        obtain rfl := Option.some.inj hf
        exact ⟨kv, hkv, hcond.1, hrs, rfl⟩
    · rw [if_neg hcond] at hf
      exact absurd hf (by simp)

theorem C2_witness :
    lookupPool
        (processFile (fun s => if s = "a" then some 4 else some 10) ([], [])
          ⟨"2_5_HTTP.csv", some ⟨true, [⟨none, some "a"⟩, ⟨none, some "b"⟩]⟩⟩).2
        (2, 5, "HTTP")
      = lookupPool ([] : List (ExpKey × List (ℕ × ℚ))) (2, 5, "HTTP")
          ++ [((rtValues (fun s => if s = "a" then some 4 else some 10)
                [⟨none, some "a"⟩, ⟨none, some "b"⟩]).length,
              spanOf (rtValues (fun s => if s = "a" then some 4 else some 10)
                [⟨none, some "a"⟩, ⟨none, some "b"⟩]))]
  ∧ (⟨2, 5, "HTTP", npMean (ratesOf [(3, 1)])⟩ : ThroughputRec)
      ∈ throughputRecords [((2, 5, "HTTP"), [(3, 1)])] 2 := by
  obtain ⟨_, h2, h3, _⟩ := throughput_sample_and_mean_of_rates
  exact ⟨(h2 (fun s => if s = "a" then some 4 else some 10) ([], [])
      ⟨"2_5_HTTP.csv", some ⟨true, [⟨none, some "a"⟩, ⟨none, some "b"⟩]⟩⟩ (2, 5, "HTTP")
      ⟨true, [⟨none, some "a"⟩, ⟨none, some "b"⟩]⟩ (by decide) rfl rfl (by decide)).1,
    h3 [((2, 5, "HTTP"), [(3, 1)])] 2 (2, 5, "HTTP") [(3, 1)]
      (by decide) rfl (by decide)⟩

/-- **C1.** A row whose two timestamps parse with reception not before
origination contributes exactly `(reception - origination)` in
milliseconds to its file's key in the delay pool, and every delay held
in a pool produced by the pipeline is non-negative (negative computed
delays are excluded). -/
theorem delay_value_accumulated_nonneg_excluded :
    (∀ (p : String → Option ℚ) (st : Pools) (e : FileEntry) (key : ExpKey) (df : Frame)
        (r : Row) (ts rs : String) (a b : PyDateTime) (d : ℤ),
      parse_filename e.name = some key → e.content = some df → r ∈ df.rows →
      r.timestamp = some ts → r.receive_time = some rs →
      parsePair (stripTZ ts.data) (stripTZ rs.data) = some (a, b) →
      pySubUs a b = some d → 0 ≤ d →
      calculate_delay ts rs = some ((d : ℚ) / 1000)
        ∧ ((d : ℚ) / 1000) ∈ lookupPool (processFile p st e).1 key)
  ∧ (∀ (p : String → Option ℚ) (files : List FileEntry) (pools : Pools) (key : ExpKey)
        (x : ℚ),
      load_experiment_data p (some files) = Except.ok pools →
      x ∈ lookupPool pools.1 key → 0 ≤ x) := by
  constructor
  · intro p st e key df r ts rs a b d hp hc hr hts hrs hpair hsub hd
    have hcalc : calculate_delay ts rs = some ((d : ℚ) / 1000) := by
      unfold calculate_delay
      rw [hpair]
      simp only [hsub]
    refine ⟨hcalc, ?_⟩
    have hnn : (0 : ℚ) ≤ (d : ℚ) / 1000 :=
      div_nonneg (by exact_mod_cast hd) (by norm_num)
    have hmem : ((d : ℚ) / 1000) ∈ fileDelays df.rows := by
      apply List.mem_filterMap.mpr
      refine ⟨r, hr, ?_⟩
      have hrow : calcDelayRow r = some ((d : ℚ) / 1000) := by
        simp [calcDelayRow, hts, hrs, hcalc]
      simp [hrow, hnn]
    rw [processFile_fst_lookup]
    have hcontrib : fileContrib e key = fileDelays df.rows := by
      simp [fileContrib, hp, hc]
    rw [hcontrib]
    exact List.mem_append_right _ hmem
  · intro p files pools key x hld hx
    obtain ⟨hne, rfl⟩ := load_ok_eq hld
    rw [foldl_processFile_fst_lookup] at hx
    rw [show lookupPool (([], []) : Pools).1 key = [] from rfl, List.nil_append] at hx
    exact mem_delayContribs_nonneg hx

theorem C1_witness :
    calculate_delay "2024-01-02T03:04:05.000000" "2024-01-02T03:04:05.050000"
        = some (((50000 : ℤ) : ℚ) / 1000)
  ∧ (((50000 : ℤ) : ℚ) / 1000)
      ∈ lookupPool
          (processFile (fun _ => none) ([], [])
            ⟨"2_5_HTTP.csv", some ⟨true,
              [⟨some "2024-01-02T03:04:05.000000", some "2024-01-02T03:04:05.050000"⟩]⟩⟩).1
          (2, 5, "HTTP") :=
  delay_value_accumulated_nonneg_excluded.1 (fun _ => none) ([], [])
    ⟨"2_5_HTTP.csv", some ⟨true,
      [⟨some "2024-01-02T03:04:05.000000", some "2024-01-02T03:04:05.050000"⟩]⟩⟩
    (2, 5, "HTTP")
    ⟨true, [⟨some "2024-01-02T03:04:05.000000", some "2024-01-02T03:04:05.050000"⟩]⟩
    ⟨some "2024-01-02T03:04:05.000000", some "2024-01-02T03:04:05.050000"⟩
    "2024-01-02T03:04:05.000000" "2024-01-02T03:04:05.050000"
    ⟨dtMicros 2024 1 2 3 4 5 0, none⟩ ⟨dtMicros 2024 1 2 3 4 5 50000, none⟩ 50000
    (by decide) rfl (by decide) rfl rfl (by decide) (by decide) (by decide)

/-- The fields of a row of `aggregate_statistics` come from one
non-empty pool entry. -/
theorem mem_aggregate_statistics {pool : List (ExpKey × List ℚ)} {s : Stat}
    (h : s ∈ aggregate_statistics pool) :
    ∃ kv ∈ pool, kv.2 ≠ [] ∧ s.key = kv.1 ∧ s.count = kv.2.length
      ∧ s.median_delay = npMedian kv.2 ∧ s.p95_delay = percentileNp kv.2 95
      ∧ s.p99_delay = percentileNp kv.2 99 := by
  obtain ⟨kv, hkv, hs⟩ := List.mem_filterMap.mp h
  by_cases hne : kv.2 = []
  · simp [hne] at hs
  · rw [if_neg hne] at hs
    obtain rfl := Option.some.inj hs
    exact ⟨kv, hkv, hne, rfl, rfl, rfl, rfl, rfl⟩

/-- **C4.** For every key in the aggregated summary the reported count
equals exactly the number of rows, across all candidate files sharing
that key, that produced a parseable non-negative delay; keys with an
empty delay pool never appear in the summary. -/
theorem aggregate_count_exact_and_empty_keys_absent :
    (∀ (p : String → Option ℚ) (files : List FileEntry) (pools : Pools),
      load_experiment_data p (some files) = Except.ok pools →
      ∀ s ∈ aggregate_statistics pools.1,
        s.count = (delayContribs (files.filter isCsvEntry) s.key).length
          ∧ s.count ≠ 0)
  ∧ (∀ (p : String → Option ℚ) (files : List FileEntry) (pools : Pools) (key : ExpKey),
      load_experiment_data p (some files) = Except.ok pools →
      lookupPool pools.1 key = [] →
      ∀ s ∈ aggregate_statistics pools.1, s.key ≠ key) := by
  have hwfinit : PoolWF ((([], []) : Pools).1) := ⟨List.nodup_nil, by simp⟩
  constructor
  · intro p files pools hld s hs
    obtain ⟨hne, rfl⟩ := load_ok_eq hld
    obtain ⟨kv, hkv, hkvne, hkey, hcount, -, -, -⟩ := mem_aggregate_statistics hs
    have hwf := poolWF_foldl_fst p (files.filter isCsvEntry) hwfinit
    have hlk := lookupPool_eq_of_mem hwf.1 hkv
    have hfold := foldl_processFile_fst_lookup p (files.filter isCsvEntry) ([], []) kv.1
    rw [show lookupPool (([], []) : Pools).1 kv.1 = [] from rfl, List.nil_append] at hfold
    constructor
    · rw [hcount, hkey, ← hfold, hlk]
    · rw [hcount]
      simpa using hkvne
  · intro p files pools key hld hempty s hs
    obtain ⟨hne, rfl⟩ := load_ok_eq hld
    obtain ⟨kv, hkv, hkvne, hkey, -, -, -, -⟩ := mem_aggregate_statistics hs
    have hwf := poolWF_foldl_fst p (files.filter isCsvEntry) hwfinit
    have hlk := lookupPool_eq_of_mem hwf.1 hkv
    intro hcontra
    rw [hkey] at hcontra
    rw [hcontra] at hlk
    rw [hempty] at hlk
    exact hkvne hlk.symm

/-- A one-file directory for exercising the aggregation invariants. -/
def c4files : List FileEntry :=
  [⟨"2_5_HTTP.csv", some ⟨true,
    [⟨some "2024-01-02T03:04:05.000000", some "2024-01-02T03:04:05.050000"⟩]⟩⟩]

/-- The pools the pipeline builds from `c4files`. -/
def c4pools : Pools :=
  (c4files.filter isCsvEntry).foldl (processFile (fun _ => none)) ([], [])

theorem c4pools_eq :
    c4pools = ([((2, 5, "HTTP"), [((50000 : ℤ) : ℚ) / 1000])], []) := by
  have h1 : calculate_delay "2024-01-02T03:04:05.000000" "2024-01-02T03:04:05.050000"
      = some (((50000 : ℤ) : ℚ) / 1000) := by rfl
  have h2 : fileDelays
      [⟨some "2024-01-02T03:04:05.000000", some "2024-01-02T03:04:05.050000"⟩]
      = [((50000 : ℤ) : ℚ) / 1000] := by
    simp only [fileDelays, List.filterMap_cons, List.filterMap_nil, calcDelayRow, h1]
    rw [if_pos (show (0 : ℚ) ≤ ((50000 : ℤ) : ℚ) / 1000 by positivity)]
  simp [c4pools, c4files, processFile, h2, extendPool, rtValues,
    show parse_filename "2_5_HTTP.csv" = some (2, 5, "HTTP") by decide,
    show isCsvEntry ⟨"2_5_HTTP.csv", some ⟨true,
      [⟨some "2024-01-02T03:04:05.000000", some "2024-01-02T03:04:05.050000"⟩]⟩⟩
        = true by decide]

theorem C4_witness :
    ((aggregate_statistics c4pools.1).headI.count
        = (delayContribs (c4files.filter isCsvEntry)
            (aggregate_statistics c4pools.1).headI.key).length
      ∧ (aggregate_statistics c4pools.1).headI.count ≠ 0)
  ∧ (aggregate_statistics c4pools.1).headI.key ≠ (9, 9, "MQTT") := by
  have hld : load_experiment_data (fun _ => none) (some c4files) = Except.ok c4pools := by
    rfl
  have hmem : (aggregate_statistics c4pools.1).headI ∈ aggregate_statistics c4pools.1 := by
    rw [c4pools_eq]
    simp [aggregate_statistics]
  refine ⟨aggregate_count_exact_and_empty_keys_absent.1 _ c4files c4pools hld _ hmem, ?_⟩
  refine aggregate_count_exact_and_empty_keys_absent.2 _ c4files c4pools (9, 9, "MQTT")
    hld ?_ _ hmem
  rw [c4pools_eq]
  simp [lookupPool]

/-! ## Timestamp-policy lemmas -/

theorem takeWhile_append_all {p : Char → Bool} {xs : List Char} (rest : List Char)
    (h : ∀ x ∈ xs, p x = true) :
    (xs ++ rest).takeWhile p = xs ++ rest.takeWhile p := by
  induction xs with
  | nil => simp
  | cons c t ih =>
    have hc : p c = true := h c (by simp)
    simp only [List.cons_append, List.takeWhile_cons, hc, if_true]
    rw [ih (fun x hx => h x (by simp [hx]))]

theorem takeWhile_all {p : Char → Bool} {xs : List Char} (h : ∀ x ∈ xs, p x = true) :
    xs.takeWhile p = xs := by
  induction xs with
  | nil => simp
  | cons c t ih =>
    simp only [List.takeWhile_cons, h c (by simp), if_true]
    rw [ih (fun x hx => h x (by simp [hx]))]

theorem takeWhile_append_stop {p : Char → Bool} {xs : List Char} {c : Char}
    (ys : List Char) (h : ∀ x ∈ xs, p x = true) (hc : p c = false) :
    (xs ++ c :: ys).takeWhile p = xs := by
  rw [takeWhile_append_all _ h]
  simp [List.takeWhile_cons, hc]

/-- **C6.** `calculate_delay` depends only on the timestamp strings
truncated at their first `+` or `Z`; it parses with `fromisoformat`
first, retries both strings with the `%Y-%m-%dT%H:%M:%S.%f` pattern on
failure, and a string failing both parses makes the row yield the
"unparseable" outcome (a skip, never an abort — the function is total). -/
theorem timestamp_parsing_policy :
    (∀ t r t2 r2 : String, stripTZ t.data = stripTZ t2.data →
        stripTZ r.data = stripTZ r2.data → calculate_delay t r = calculate_delay t2 r2)
  ∧ (∀ xs ys : List Char, '+' ∉ xs → 'Z' ∉ xs →
        stripTZ (xs ++ '+' :: ys) = stripTZ xs ∧ stripTZ (xs ++ 'Z' :: ys) = stripTZ xs)
  ∧ (∀ (t r : List Char) (a b : PyDateTime), fromisoformat t = some a →
        fromisoformat r = some b → parsePair t r = some (a, b))
  ∧ (∀ t r : List Char, fromisoformat t = none ∨ fromisoformat r = none →
        parsePair t r
          = match strptimeIso t, strptimeIso r with
            | some a, some b => some (a, b)
            | _, _ => none)
  ∧ (∀ t r : String,
        (fromisoformat (stripTZ t.data) = none ∧ strptimeIso (stripTZ t.data) = none)
          ∨ (fromisoformat (stripTZ r.data) = none ∧ strptimeIso (stripTZ r.data) = none) →
        calculate_delay t r = none) := by
  have hplus : ∀ xs ys : List Char, '+' ∉ xs → 'Z' ∉ xs →
      stripTZ (xs ++ '+' :: ys) = stripTZ xs ∧ stripTZ (xs ++ 'Z' :: ys) = stripTZ xs := by
    intro xs ys hp hz
    have hallp : ∀ x ∈ xs, (decide (x ≠ '+') : Bool) = true := by
      intro x hx
      simp only [decide_eq_true_eq]
      exact fun hcon => hp (hcon ▸ hx)
    have hallz : ∀ x ∈ xs, (decide (x ≠ 'Z') : Bool) = true := by
      intro x hx
      simp only [decide_eq_true_eq]
      exact fun hcon => hz (hcon ▸ hx)
    have hxs : stripTZ xs = xs := by
      unfold stripTZ
      rw [takeWhile_all hallp, takeWhile_all hallz]
    constructor
    · rw [hxs]
      unfold stripTZ
      rw [takeWhile_append_stop ys hallp (by simp), takeWhile_all hallz]
    · rw [hxs]
      unfold stripTZ
      rw [takeWhile_append_all ('Z' :: ys) hallp]
      rw [show List.takeWhile (fun x => decide (x ≠ '+')) ('Z' :: ys)
            = 'Z' :: List.takeWhile (fun x => decide (x ≠ '+')) ys by
          simp [List.takeWhile_cons]]
      exact takeWhile_append_stop _ hallz (by simp)
  have hpair_iso : ∀ (t r : List Char) (a b : PyDateTime), fromisoformat t = some a →
      fromisoformat r = some b → parsePair t r = some (a, b) := by
    intro t r a b ht hr
    simp [parsePair, ht, hr]
  have hpair_fallback : ∀ t r : List Char,
      fromisoformat t = none ∨ fromisoformat r = none →
      parsePair t r
        = match strptimeIso t, strptimeIso r with
          | some a, some b => some (a, b)
          | _, _ => none := by
    intro t r h
    rcases h with h | h
    · simp [parsePair, h]
    · cases hft : fromisoformat t <;> simp [parsePair, hft, h]
  refine ⟨?_, hplus, hpair_iso, hpair_fallback, ?_⟩
  · intro t r t2 r2 h1 h2
    unfold calculate_delay
    rw [h1, h2]
  · intro t r h
    unfold calculate_delay
    rcases h with ⟨hiso, hstr⟩ | ⟨hiso, hstr⟩
    · rw [hpair_fallback _ _ (Or.inl hiso), hstr]
    · rw [hpair_fallback _ _ (Or.inr hiso), hstr]
      cases strptimeIso (stripTZ t.data) <;> rfl

theorem C6_witness :
    calculate_delay "2024-01-02T03:04:05+05:00" "2024-01-02T03:04:06"
        = calculate_delay "2024-01-02T03:04:05Z07" "2024-01-02T03:04:06"
  ∧ (stripTZ ("2024".data ++ '+' :: "05".data) = stripTZ "2024".data
      ∧ stripTZ ("2024".data ++ 'Z' :: "05".data) = stripTZ "2024".data)
  ∧ parsePair "2024-01-02T03:04:05".data "2024-01-02T03:04:06".data
      = some (⟨dtMicros 2024 1 2 3 4 5 0, none⟩, ⟨dtMicros 2024 1 2 3 4 6 0, none⟩)
  ∧ parsePair "not-a-date".data "2024-01-02T03:04:06".data
      = (match strptimeIso "not-a-date".data, strptimeIso "2024-01-02T03:04:06".data with
         | some a, some b => some (a, b)
         | _, _ => none)
  ∧ calculate_delay "not-a-date" "2024-01-02T03:04:06" = none := by
  obtain ⟨h1, h2, h3, h4, h5⟩ := timestamp_parsing_policy
  exact ⟨h1 _ _ _ _ (by decide) (by decide),
    h2 "2024".data "05".data (by decide) (by decide),
    h3 _ _ _ _ (by decide) (by decide),
    h4 _ _ (Or.inl (by decide)),
    h5 "not-a-date" "2024-01-02T03:04:06" (Or.inl ⟨by decide, by decide⟩)⟩

/-- **C10.** Timezone stripping handles only `+` offsets and `Z`: a pair
in which exactly one string parses with a (necessarily negative,
`+`-offsets having been truncated) UTC offset while the other parses
naive is rejected as unparseable (aware-naive subtraction fails); when
both carry negative offsets the delay incorporates both offsets instead
of comparing the wall-clock values. -/
theorem negative_offset_mixing :
    (∀ (t r : String) (a b : PyDateTime) (o : ℤ),
      fromisoformat (stripTZ t.data) = some a →
      fromisoformat (stripTZ r.data) = some b → o < 0 →
      (a.offsetUs = some o ∧ b.offsetUs = none)
        ∨ (a.offsetUs = none ∧ b.offsetUs = some o) →
      calculate_delay t r = none)
  ∧ (∀ (t r : String) (a b : PyDateTime) (o1 o2 : ℤ),
      fromisoformat (stripTZ t.data) = some a →
      fromisoformat (stripTZ r.data) = some b →
      o1 < 0 → o2 < 0 → a.offsetUs = some o1 → b.offsetUs = some o2 →
      calculate_delay t r
        = some (((((b.us : ℤ) - o2) - ((a.us : ℤ) - o1)) : ℚ) / 1000)) := by
  constructor
  · intro t r a b o ha hb ho hcase
    unfold calculate_delay
    rw [show parsePair (stripTZ t.data) (stripTZ r.data) = some (a, b) by
      simp [parsePair, ha, hb]]
    rcases hcase with ⟨h1, h2⟩ | ⟨h1, h2⟩ <;> simp [pySubUs, h1, h2]
  · intro t r a b o1 o2 ha hb ho1 ho2 h1 h2
    unfold calculate_delay
    rw [show parsePair (stripTZ t.data) (stripTZ r.data) = some (a, b) by
      simp [parsePair, ha, hb]]
    simp [pySubUs, h1, h2]

theorem C10_witness :
    calculate_delay "2024-01-02T03:04:05-05:00" "2024-01-02T03:04:06" = none
  ∧ calculate_delay "2024-01-02T03:04:05-05:00" "2024-01-02T03:04:05-04:00"
      = some ((((((dtMicros 2024 1 2 3 4 5 0 : ℕ) : ℤ) - (-14400000000))
            - (((dtMicros 2024 1 2 3 4 5 0 : ℕ) : ℤ) - (-18000000000))) : ℚ) / 1000) := by
  obtain ⟨h1, h2⟩ := negative_offset_mixing
  exact ⟨h1 "2024-01-02T03:04:05-05:00" "2024-01-02T03:04:06"
      ⟨dtMicros 2024 1 2 3 4 5 0, some (-18000000000)⟩
      ⟨dtMicros 2024 1 2 3 4 6 0, none⟩ (-18000000000)
      (by decide) (by decide) (by decide) (Or.inl ⟨rfl, rfl⟩),
    h2 "2024-01-02T03:04:05-05:00" "2024-01-02T03:04:05-04:00"
      ⟨dtMicros 2024 1 2 3 4 5 0, some (-18000000000)⟩
      ⟨dtMicros 2024 1 2 3 4 5 0, some (-14400000000)⟩
      (-18000000000) (-14400000000)
      (by decide) (by decide) (by decide) (by decide) rfl rfl⟩

/-! ## Filename-shape lemmas -/

theorem removeCsv_cons_ne_dot (c : Char) (l : List Char) (h : c ≠ '.') :
    removeCsv (c :: l) = c :: removeCsv l := by
  rw [removeCsv.eq_def]
  split
  · rename_i heq
    exact absurd (List.cons.inj heq).1 h
  · rename_i c2 rest heq
    obtain ⟨rfl, rfl⟩ := List.cons.inj heq
    rfl
  · rename_i heq
    exact absurd heq (by simp)

theorem removeCsv_no_dot {l : List Char} (h : '.' ∉ l) : removeCsv l = l := by
  induction l with
  | nil => rfl
  | cons c t ih =>
    rw [removeCsv_cons_ne_dot c t (fun hc => h (hc ▸ List.mem_cons_self c t))]
    rw [ih (fun ht => h (List.mem_cons_of_mem _ ht))]

theorem removeCsv_append_csv {xs : List Char} (h : '.' ∉ xs) :
    removeCsv (xs ++ ".csv".data) = xs := by
  induction xs with
  | nil => rfl
  | cons c t ih =>
    rw [List.cons_append,
      removeCsv_cons_ne_dot c _ (fun hc => h (hc ▸ List.mem_cons_self c t)),
      ih (fun ht => h (List.mem_cons_of_mem _ ht))]

theorem dropWhile_append_all {p : Char → Bool} {xs : List Char} (rest : List Char)
    (h : ∀ x ∈ xs, p x = true) :
    (xs ++ rest).dropWhile p = rest.dropWhile p := by
  induction xs with
  | nil => simp
  | cons c t ih =>
    have hc : p c = true := h c (by simp)
    simp only [List.cons_append, List.dropWhile_cons, hc, if_true]
    exact ih (fun x hx => h x (by simp [hx]))

theorem dropWhile_append_stop {p : Char → Bool} {xs : List Char} {c : Char}
    (ys : List Char) (h : ∀ x ∈ xs, p x = true) (hc : p c = false) :
    (xs ++ c :: ys).dropWhile p = c :: ys := by
  rw [dropWhile_append_all _ h]
  simp [List.dropWhile_cons, hc]

theorem regexEndOk_eq {t : List Char} (h : regexEndOk t = true) :
    t = [] ∨ t = ['\n'] := by
  unfold regexEndOk at h
  split at h
  · exact Or.inl rfl
  · exact Or.inr rfl
  · exact absurd h (by simp)

theorem protoMatch_some {l : List Char} {proto : String} (h : protoMatch l = some proto) :
    ∃ a b c d t, l = a :: b :: c :: d :: t ∧ (t = [] ∨ t = ['\n'])
      ∧ [a, b, c, d].map Char.toUpper = proto.data
      ∧ (proto = "HTTP" ∨ proto = "MQTT") := by
  unfold protoMatch at h
  split at h
  · rename_i a b c d t
    by_cases hend : regexEndOk t = true
    · simp only [hend, if_true] at h
      by_cases hup1 : [a, b, c, d].map Char.toUpper = "HTTP".data
      · rw [if_pos hup1] at h
        obtain rfl := Option.some.inj h
        exact ⟨a, b, c, d, t, rfl, regexEndOk_eq hend, hup1, Or.inl rfl⟩
      · rw [if_neg hup1] at h
        by_cases hup2 : [a, b, c, d].map Char.toUpper = "MQTT".data
        · rw [if_pos hup2] at h
          obtain rfl := Option.some.inj h
          exact ⟨a, b, c, d, t, rfl, regexEndOk_eq hend, hup2, Or.inr rfl⟩
        · rw [if_neg hup2] at h
          exact absurd h (by simp)
    · simp [hend] at h
  · exact absurd h (by simp)

theorem protoMatch_pos {pr : List Char}
    (hpr : pr.map Char.toUpper = "HTTP".data ∨ pr.map Char.toUpper = "MQTT".data) :
    protoMatch pr = some ⟨pr.map Char.toUpper⟩ := by
  have hlen : pr.length = 4 := by
    rcases hpr with hp | hp <;>
      simpa using congrArg List.length hp
  obtain ⟨a, b, c, d, rfl⟩ : ∃ a b c d, pr = [a, b, c, d] := by
    rcases pr with _ | ⟨a, _ | ⟨b, _ | ⟨c, _ | ⟨d, _ | ⟨e, t⟩⟩⟩⟩⟩ <;> simp at hlen
    exact ⟨a, b, c, d, rfl⟩
  rcases hpr with hp | hp
  · simp [protoMatch, regexEndOk, hp]
  · have hne : [a, b, c, d].map Char.toUpper ≠ "HTTP".data := by
      rw [hp]
      decide
    simp [protoMatch, regexEndOk, hp, hne]

theorem parse_filename_shape_pos (ds1 ds2 pr : List Char) (h1 : ds1 ≠ [])
    (h1d : ds1.all Char.isDigit = true) (h2 : ds2 ≠ [])
    (h2d : ds2.all Char.isDigit = true)
    (hpr : pr.map Char.toUpper = "HTTP".data ∨ pr.map Char.toUpper = "MQTT".data) :
    parse_filename ⟨ds1 ++ '_' :: ds2 ++ '_' :: pr ++ ".csv".data⟩
      = some (natOfDigits ds1, natOfDigits ds2, ⟨pr.map Char.toUpper⟩) := by
  have hprdot : '.' ∉ pr := by
    intro hc
    have hmem : Char.toUpper '.' ∈ pr.map Char.toUpper := List.mem_map_of_mem _ hc
    rcases hpr with hp | hp <;> rw [hp] at hmem <;> exact absurd hmem (by decide)
  have hdot : '.' ∉ (ds1 ++ '_' :: (ds2 ++ '_' :: pr)) := by
    intro hc
    simp only [List.mem_append, List.mem_cons] at hc
    rcases hc with hc | hc | hc | hc | hc
    · simpa using List.all_eq_true.mp h1d '.' hc
    · exact absurd hc (by decide)
    · simpa using List.all_eq_true.mp h2d '.' hc
    · exact absurd hc (by decide)
    · exact hprdot hc
  have hall1 : ∀ x ∈ ds1, Char.isDigit x = true := List.all_eq_true.mp h1d
  have hall2 : ∀ x ∈ ds2, Char.isDigit x = true := List.all_eq_true.mp h2d
  have hbase : removeCsv (ds1 ++ '_' :: ds2 ++ '_' :: pr ++ ".csv".data)
      = ds1 ++ '_' :: (ds2 ++ '_' :: pr) := by
    rw [show ds1 ++ '_' :: ds2 ++ '_' :: pr ++ ".csv".data
          = (ds1 ++ '_' :: (ds2 ++ '_' :: pr)) ++ ".csv".data by simp]
    exact removeCsv_append_csv hdot
  have hstr : (⟨ds1 ++ '_' :: ds2 ++ '_' :: pr ++ ".csv".data⟩ : String).data
      = ds1 ++ '_' :: ds2 ++ '_' :: pr ++ ".csv".data := rfl
  simp only [parse_filename, hstr, hbase,
    takeWhile_append_stop _ hall1 (by decide : Char.isDigit '_' = false),
    dropWhile_append_stop _ hall1 (by decide : Char.isDigit '_' = false),
    takeWhile_append_stop _ hall2 (by decide : Char.isDigit '_' = false),
    dropWhile_append_stop _ hall2 (by decide : Char.isDigit '_' = false),
    protoMatch_pos hpr]
  simp [h1, h2]

theorem parse_filename_sound {s : String} {n m : ℕ} {pr : String}
    (h : parse_filename s = some (n, m, pr)) :
    ∃ ds1 ds2 p4 t, removeCsv s.data = ds1 ++ '_' :: (ds2 ++ '_' :: (p4 ++ t))
      ∧ ds1 ≠ [] ∧ ds1.all Char.isDigit = true
      ∧ ds2 ≠ [] ∧ ds2.all Char.isDigit = true
      ∧ (p4.map Char.toUpper = "HTTP".data ∨ p4.map Char.toUpper = "MQTT".data)
      ∧ (t = [] ∨ t = ['\n'])
      ∧ n = natOfDigits ds1 ∧ m = natOfDigits ds2 ∧ pr = ⟨p4.map Char.toUpper⟩ := by
  simp only [parse_filename] at h
  split at h
  · rename_i r2 heq1
    split at h
    · rename_i r4 heq2
      by_cases hguard : (removeCsv s.data).takeWhile Char.isDigit = []
          ∨ r2.takeWhile Char.isDigit = []
      · rw [if_pos hguard] at h
        exact absurd h (by simp)
      · rw [if_neg hguard] at h
        cases hpm : protoMatch r4 with
        | none =>
          rw [hpm] at h
          exact absurd h (by simp)
        | some proto =>
          rw [hpm] at h
          simp only [Option.some.injEq, Prod.mk.injEq] at h
          obtain ⟨hn, hm, hpr⟩ := h
          obtain ⟨a, b, c, d, t, rfl, ht, hmap, hor⟩ := protoMatch_some hpm
          refine ⟨(removeCsv s.data).takeWhile Char.isDigit,
            r2.takeWhile Char.isDigit, [a, b, c, d], t, ?_,
            fun hh => hguard (Or.inl hh), ?_,
            fun hh => hguard (Or.inr hh), ?_, ?_, ht, hn.symm, hm.symm, ?_⟩
          · conv_lhs => rw [← List.takeWhile_append_dropWhile
              (p := Char.isDigit) (l := removeCsv s.data)]
            rw [heq1]
            have : r2 = r2.takeWhile Char.isDigit ++ ('_' :: (a :: b :: c :: d :: t)) := by
              conv_lhs => rw [← List.takeWhile_append_dropWhile
                (p := Char.isDigit) (l := r2)]
              rw [heq2]
            rw [this]
            simp
            exact (takeWhile_append_stop _
              (fun x hx => List.mem_takeWhile_imp hx) (by decide)).symm
          · exact List.all_eq_true.mpr (fun x hx => List.mem_takeWhile_imp hx)
          · exact List.all_eq_true.mpr (fun x hx => List.mem_takeWhile_imp hx)
          · rcases hor with rfl | rfl
            · exact Or.inl hmap
            · exact Or.inr hmap
          · subst hpr
            rw [hmap]
    · exact absurd h (by simp)
  · exact absurd h (by simp)

/-- The spec's filename shape (`§8`): `<integer>_<integer>_<PROTOCOL>`
(protocol case-insensitive), optionally followed by the candidate
extension `.csv`.  Written from the spec's words, for comparison with
`parse_filename`. -/
def SpecShape (l : List Char) : Prop :=
  ∃ ds1 ds2 p4 ext, l = ds1 ++ '_' :: (ds2 ++ '_' :: (p4 ++ ext))
    ∧ ds1 ≠ [] ∧ ds1.all Char.isDigit = true
    ∧ ds2 ≠ [] ∧ ds2.all Char.isDigit = true
    ∧ (p4.map Char.toUpper = "HTTP".data ∨ p4.map Char.toUpper = "MQTT".data)
    ∧ (ext = [] ∨ ext = ".csv".data)

/-- **C3 counterexample.** `.replace('.csv','')` deletes every
occurrence of `.csv`, not just a trailing extension, so filenames that
are not of the documented `<int>_<int>_<PROTOCOL>[.csv]` shape still
decode: `.csv1_2_HTTP` (which starts with a non-digit) and
`1_2_HTTP.csv.csv` both decode to `(1, 2, "HTTP")` instead of "does
not match". -/
theorem C3_counterexample :
    parse_filename ".csv1_2_HTTP" = some (1, 2, "HTTP")
  ∧ ¬ SpecShape ".csv1_2_HTTP".data
  ∧ parse_filename "1_2_HTTP.csv.csv" = some (1, 2, "HTTP") := by
  refine ⟨by decide, ?_, by decide⟩
  rintro ⟨ds1, ds2, p4, ext, heq, h1, h1d, -, -, -, -⟩
  cases ds1 with
  | nil => exact h1 rfl
  | cons c t =>
    rw [show ".csv1_2_HTTP".data = '.' :: "csv1_2_HTTP".data from rfl,
      List.cons_append] at heq
    have hc : '.' = c := (List.cons.inj heq).1
    have hd := List.all_eq_true.mp h1d c (by simp)
    rw [← hc] at hd
    exact absurd hd (by decide)

/-- **C3 (amended).** Decoding first deletes every occurrence of `.csv`
from the filename (and `$` also matches before one trailing newline);
a filename decodes successfully iff what remains after that removal is
exactly `<digits>_<digits>_<HTTP|MQTT>` (case-insensitive, possibly
followed by a single newline), in which case the result is the two
integers and the upper-cased protocol.  In particular every conforming
`<int>_<int>_<PROTOCOL>.csv` name decodes to its components, and
decoding never raises (it is a total function). -/
theorem filename_decoding_amended :
    (∀ ds1 ds2 pr : List Char, ds1 ≠ [] → ds1.all Char.isDigit = true → ds2 ≠ [] →
      ds2.all Char.isDigit = true →
      (pr.map Char.toUpper = "HTTP".data ∨ pr.map Char.toUpper = "MQTT".data) →
      parse_filename ⟨ds1 ++ '_' :: ds2 ++ '_' :: pr ++ ".csv".data⟩
        = some (natOfDigits ds1, natOfDigits ds2, ⟨pr.map Char.toUpper⟩))
  ∧ (∀ (s : String) (n m : ℕ) (pr : String), parse_filename s = some (n, m, pr) →
      ∃ ds1 ds2 p4 t, removeCsv s.data = ds1 ++ '_' :: (ds2 ++ '_' :: (p4 ++ t))
        ∧ ds1 ≠ [] ∧ ds1.all Char.isDigit = true
        ∧ ds2 ≠ [] ∧ ds2.all Char.isDigit = true
        ∧ (p4.map Char.toUpper = "HTTP".data ∨ p4.map Char.toUpper = "MQTT".data)
        ∧ (t = [] ∨ t = ['\n'])
        ∧ n = natOfDigits ds1 ∧ m = natOfDigits ds2 ∧ pr = ⟨p4.map Char.toUpper⟩) :=
  ⟨parse_filename_shape_pos, fun _ _ _ _ h => parse_filename_sound h⟩

theorem C3_witness :
    parse_filename ⟨['2'] ++ '_' :: ['5'] ++ '_' :: "http".data ++ ".csv".data⟩
        = some (natOfDigits ['2'], natOfDigits ['5'], ⟨"http".data.map Char.toUpper⟩)
  ∧ ∃ ds1 ds2 p4 t,
      removeCsv ("10_20_mqtt.csv" : String).data
          = ds1 ++ '_' :: (ds2 ++ '_' :: (p4 ++ t))
        ∧ ds1 ≠ [] ∧ ds1.all Char.isDigit = true
        ∧ ds2 ≠ [] ∧ ds2.all Char.isDigit = true
        ∧ (p4.map Char.toUpper = "HTTP".data ∨ p4.map Char.toUpper = "MQTT".data)
        ∧ (t = [] ∨ t = ['\n'])
        ∧ 10 = natOfDigits ds1 ∧ 20 = natOfDigits ds2
        ∧ "MQTT" = (⟨p4.map Char.toUpper⟩ : String) := by
  obtain ⟨hpos, hsound⟩ := filename_decoding_amended
  exact ⟨hpos ['2'] ['5'] "http".data (by decide) (by decide) (by decide) (by decide)
      (Or.inl (by decide)),
    hsound "10_20_mqtt.csv" 10 20 "MQTT" (by decide)⟩

/-! ## Percentile monotonicity -/

theorem sorted_getD_mono {s : List ℚ} (hs : s.Sorted (· ≤ ·)) {i j : ℕ} (hij : i ≤ j)
    (hj : j < s.length) : s.getD i 0 ≤ s.getD j 0 := by
  have hi : i < s.length := lt_of_le_of_lt hij hj
  rw [List.getD_eq_get s 0 hi, List.getD_eq_get s 0 hj]
  exact hs.rel_get_of_le (by exact_mod_cast hij)

/-- The linear-interpolation kernel of `np.percentile`, at a fractional
index `h`. -/
def interpAt (s : List ℚ) (h : ℚ) : ℚ :=
  s.getD (⌊h⌋).toNat 0
    + (h - ((⌊h⌋).toNat : ℚ))
      * (s.getD ((⌊h⌋).toNat + 1) 0 - s.getD (⌊h⌋).toNat 0)

theorem percentileNp_eq_interpAt (l : List ℚ) (q : ℚ) :
    percentileNp l q = interpAt (sortQ l) (q * (((sortQ l).length : ℚ) - 1) / 100) := rfl

theorem interpAt_mono {s : List ℚ} (hs : s.Sorted (· ≤ ·)) {h1 h2 : ℚ}
    (h0 : 0 ≤ h1) (h12 : h1 ≤ h2) (hub : h2 ≤ (s.length : ℚ) - 1) :
    interpAt s h1 ≤ interpAt s h2 := by
  have hf1 : (0 : ℤ) ≤ ⌊h1⌋ := Int.floor_nonneg.mpr h0
  have hf2 : (0 : ℤ) ≤ ⌊h2⌋ := Int.floor_nonneg.mpr (le_trans h0 h12)
  set i1 : ℕ := (⌊h1⌋).toNat with hi1def
  set i2 : ℕ := (⌊h2⌋).toNat with hi2def
  have hc1 : (i1 : ℚ) = (⌊h1⌋ : ℚ) := by
    rw [hi1def]
    exact_mod_cast congrArg (fun z : ℤ => (z : ℚ)) (Int.toNat_of_nonneg hf1)
  have hc2 : (i2 : ℚ) = (⌊h2⌋ : ℚ) := by
    rw [hi2def]
    exact_mod_cast congrArg (fun z : ℤ => (z : ℚ)) (Int.toNat_of_nonneg hf2)
  have hle1 : (i1 : ℚ) ≤ h1 := by rw [hc1]; exact Int.floor_le h1
  have hle2 : (i2 : ℚ) ≤ h2 := by rw [hc2]; exact Int.floor_le h2
  have hlt1 : h1 < (i1 : ℚ) + 1 := by rw [hc1]; exact_mod_cast Int.lt_floor_add_one h1
  have hlt2 : h2 < (i2 : ℚ) + 1 := by rw [hc2]; exact_mod_cast Int.lt_floor_add_one h2
  have hi12 : i1 ≤ i2 := by
    rw [hi1def, hi2def]
    exact Int.toNat_le_toNat (Int.floor_le_floor h12)
  have hn2 : i2 < s.length := by
    have : (i2 : ℚ) + 1 ≤ (s.length : ℚ) := by linarith
    exact_mod_cast this
  unfold interpAt
  rw [← hi1def, ← hi2def]
  by_cases hcase : i1 = i2
  · rw [hcase] at hle1 hlt1 ⊢
    by_cases hi2n : i2 + 1 < s.length
    · have hd : s.getD i2 0 ≤ s.getD (i2 + 1) 0 :=
        sorted_getD_mono hs (Nat.le_succ i2) hi2n
      nlinarith [hd, h12]
    · have hn1 : (s.length : ℚ) ≤ (i2 : ℚ) + 1 := by
        have : s.length ≤ i2 + 1 := le_of_not_lt hi2n
        exact_mod_cast this
      have hh : h1 = h2 := le_antisymm h12 (by linarith)
      rw [hh]
  · have hlt : i1 < i2 := lt_of_le_of_ne hi12 hcase
    have hi1n : i1 + 1 < s.length := lt_of_le_of_lt hlt hn2
    have hd1 : s.getD i1 0 ≤ s.getD (i1 + 1) 0 :=
      sorted_getD_mono hs (Nat.le_succ i1) hi1n
    have hA : s.getD i1 0 + (h1 - (i1 : ℚ)) * (s.getD (i1 + 1) 0 - s.getD i1 0)
        ≤ s.getD (i1 + 1) 0 := by
      nlinarith [hd1]
    have hB : s.getD (i1 + 1) 0 ≤ s.getD i2 0 := sorted_getD_mono hs hlt hn2
    have hC : s.getD i2 0
        ≤ s.getD i2 0 + (h2 - (i2 : ℚ)) * (s.getD (i2 + 1) 0 - s.getD i2 0) := by
      by_cases hi2n : i2 + 1 < s.length
      · have hd2 : s.getD i2 0 ≤ s.getD (i2 + 1) 0 :=
          sorted_getD_mono hs (Nat.le_succ i2) hi2n
        nlinarith [hd2]
      · have hn1 : (s.length : ℚ) ≤ (i2 : ℚ) + 1 := by
          have : s.length ≤ i2 + 1 := le_of_not_lt hi2n
          exact_mod_cast this
        have hg2 : h2 - (i2 : ℚ) = 0 := by linarith
        rw [hg2]
        ring_nf
        exact le_refl _
    linarith

theorem percentileNp_mono (l : List ℚ) (hl : l ≠ []) {q1 q2 : ℚ} (h0 : 0 ≤ q1)
    (h12 : q1 ≤ q2) (h100 : q2 ≤ 100) : percentileNp l q1 ≤ percentileNp l q2 := by
  have hsorted : (sortQ l).Sorted (· ≤ ·) := List.sorted_insertionSort _ l
  have hlen : (sortQ l).length = l.length := List.length_insertionSort _ l
  have hlpos : 1 ≤ l.length := List.length_pos.mpr hl
  have hnq : (1 : ℚ) ≤ ((sortQ l).length : ℚ) := by
    rw [hlen]
    exact_mod_cast hlpos
  rw [percentileNp_eq_interpAt, percentileNp_eq_interpAt]
  have hc : (0 : ℚ) ≤ ((sortQ l).length : ℚ) - 1 := by linarith
  refine interpAt_mono hsorted ?_ ?_ ?_
  · positivity
  · apply div_le_div_of_nonneg_right ?_ (by norm_num)
    exact mul_le_mul_of_nonneg_right h12 hc
  · rw [div_le_iff (by norm_num : (0:ℚ) < 100)]
    nlinarith

theorem npMedian_eq_percentile50 (l : List ℚ) (hl : l ≠ []) :
    npMedian l = percentileNp l 50 := by
  have hlen : (sortQ l).length = l.length := List.length_insertionSort _ l
  have hlpos : 1 ≤ (sortQ l).length := by
    rw [hlen]
    exact List.length_pos.mpr hl
  simp only [npMedian, percentileNp]
  rcases Nat.even_or_odd (sortQ l).length with he | ho
  · obtain ⟨k, hk⟩ := he
    have hk1 : 1 ≤ k := by omega
    have hmod : (sortQ l).length % 2 = 0 := by omega
    have hdiv : (sortQ l).length / 2 = k := by omega
    have hh : (50 : ℚ) * (((sortQ l).length : ℚ) - 1) / 100
        = ((k - 1 : ℕ) : ℚ) + 1 / 2 := by
      have : ((sortQ l).length : ℚ) = 2 * (k : ℚ) := by
        rw [hk]
        push_cast
        ring
      rw [this, Nat.cast_sub hk1]
      push_cast
      ring
    have hfloor : ⌊(50 : ℚ) * (((sortQ l).length : ℚ) - 1) / 100⌋ = ((k - 1 : ℕ) : ℤ) := by
      rw [hh, add_comm]
      rw [show (((k - 1 : ℕ) : ℚ)) = (((k - 1 : ℕ) : ℤ) : ℚ) by push_cast; ring]
      rw [Int.floor_add_int]
      norm_num
    rw [hfloor]
    simp only [Int.toNat_natCast, hmod, hdiv]
    rw [hh]
    have hidx : k - 1 + 1 = k := by omega
    rw [hidx]
    push_cast [Nat.cast_sub hk1]
    ring_nf
  · obtain ⟨k, hk⟩ := ho
    have hmod : (sortQ l).length % 2 = 1 := by omega
    have hdiv : (sortQ l).length / 2 = k := by omega
    have hh : (50 : ℚ) * (((sortQ l).length : ℚ) - 1) / 100 = ((k : ℕ) : ℚ) := by
      have : ((sortQ l).length : ℚ) = 2 * (k : ℚ) + 1 := by
        rw [hk]
        push_cast
        ring
      rw [this]
      ring
    have hfloor : ⌊(50 : ℚ) * (((sortQ l).length : ℚ) - 1) / 100⌋ = (k : ℤ) := by
      rw [hh]
      exact_mod_cast Int.floor_natCast k
    rw [hfloor, hh]
    simp [hmod, hdiv]

/-- **C9.** For every row of the aggregated summary (hence every
non-empty delay pool), the percentiles are monotonic in rank:
median ≤ p95 ≤ p99. -/
theorem percentiles_monotone_in_rank :
    ∀ (pool : List (ExpKey × List ℚ)) (s : Stat), s ∈ aggregate_statistics pool →
      s.median_delay ≤ s.p95_delay ∧ s.p95_delay ≤ s.p99_delay := by
  intro pool s hs
  obtain ⟨kv, -, hne, -, -, hmed, h95, h99⟩ := mem_aggregate_statistics hs
  constructor
  · rw [hmed, h95, npMedian_eq_percentile50 _ hne]
    exact percentileNp_mono _ hne (by norm_num) (by norm_num) (by norm_num)
  · rw [h95, h99]
    exact percentileNp_mono _ hne (by norm_num) (by norm_num) (by norm_num)

theorem C9_witness :
    (aggregate_statistics [((2, 5, "HTTP"), [3, 1, 2])]).headI.median_delay
        ≤ (aggregate_statistics [((2, 5, "HTTP"), [3, 1, 2])]).headI.p95_delay
  ∧ (aggregate_statistics [((2, 5, "HTTP"), [3, 1, 2])]).headI.p95_delay
        ≤ (aggregate_statistics [((2, 5, "HTTP"), [3, 1, 2])]).headI.p99_delay :=
  percentiles_monotone_in_rank [((2, 5, "HTTP"), [3, 1, 2])] _
    (by simp [aggregate_statistics])
